import Mathlib

/-!
# The `fit` infix adaptor (`fit/infix.h`)

A shallow embedding of `detail::postfix_adaptor`, `detail::make_postfix_adaptor`,
`infix_adaptor`, the three overloads of the capture operator `operator<` and the
factory declared by `FIT_DECLARE_STATIC_VAR`, followed by the properties of the
two-step call `x <f> y`.

C++ notions the header relies on are made explicit:

* an argument expression has a value category (`Cat`), is const or not, and
  refers to an object holding a value (`Arg`);
* a forwarding-reference parameter `T&& x` deduces `T = X&` for an lvalue and
  `T = X` for an rvalue, so the first member of `postfix_adaptor<T, F>` is either
  an object of its own or a reference to a variable of the caller (`Slot`);
* whether a call type-checks is decided from the types of its arguments
  (`FunctionObject.accepts`), apart from the value the call has at run time
  (`FunctionObject.result`);
* a callable may write through a reference it receives; the value it leaves in
  the object bound to its first parameter is recorded (`FunctionObject.leaves`).
  Effects on the remaining arguments are not tracked;
* variables of the caller live in an environment (`Env`), threaded explicitly.
-/

namespace fit

/-! ## Expressions, objects and callables -/

/-- Value category of an argument expression. -/
inductive Cat
  | lvalue
  | rvalue
deriving DecidableEq, Repr

/-- The type of an argument expression as overload resolution sees it: its value
category and whether it is const. -/
structure ArgType where
  cat : Cat
  isConst : Bool
deriving DecidableEq, Repr

/-- An argument as a callee sees it: the category of the expression, whether the
expression is const, and the value currently held by the object it refers to. -/
structure Arg (V : Type) where
  cat : Cat
  isConst : Bool
  val : V
deriving DecidableEq, Repr

/-- The type of an argument expression. -/
def Arg.ty {V : Type} (a : Arg V) : ArgType := ⟨a.cat, a.isConst⟩

/-- The id-expression naming a function parameter is an lvalue, whatever was
bound to the parameter (plain `xs...` in the header). -/
def param {V : Type} (a : Arg V) : Arg V := ⟨Cat.lvalue, a.isConst, a.val⟩

/-- Model of `fit::forward<T>(e)`: the category deduced for `T` is restored. -/
def forward {V : Type} (T : Cat) (e : Arg V) : Arg V := ⟨T, e.isConst, e.val⟩

/-- Model of `fit::move(e)`: a cast to an rvalue; constness is kept and the
object is untouched. -/
def move {V : Type} (e : Arg V) : Arg V := ⟨Cat.rvalue, e.isConst, e.val⟩

/-- A type with the usual copy and move constructors: `movedFrom x` is the state
a move construction leaves in its source. -/
class MoveConstructible (X : Type) where
  movedFrom : X → X

/-- Initialisation of a new object (a by-value parameter or a member) from an
expression of the given constness and category. Returns the new object and the
state of the source afterwards: only a non-const rvalue selects the move
constructor, everything else is copied. -/
def construct {X : Type} [MoveConstructible X] (isConst : Bool) (c : Cat) (src : X) : X × X :=
  match isConst, c with
  | false, Cat.rvalue => (src, MoveConstructible.movedFrom src)
  | _, _ => (src, src)

/-- A function object `F` seen through `const F&`, with arguments over `V` and
results in `R`.

* `accepts f ts` tells whether the call expression `f(args...)` type-checks for
  arguments of the types `ts`; it is decided at compile time, from the types
  alone;
* `result f args` is the value of the call `f(args...)`, `none` when the call has
  no value: the call expression is not well-formed for these arguments, or its
  behaviour is undefined;
* `leaves f a rest` is the value left in the object that `a` refers to by the
  call `f(a, rest...)`. -/
class FunctionObject (F : Type) (V R : outParam Type) where
  accepts : F → List ArgType → Bool
  result : F → List (Arg V) → Option R
  leaves : F → Arg V → List (Arg V) → V

/-- What a by-value first parameter leaves in the object of its argument: the
parameter is initialised from the argument, so the object is left moved-from
when the argument is a non-const rvalue and keeps its value (a copy was taken)
otherwise. -/
def passByValue {V : Type} [MoveConstructible V] (a : Arg V) : V :=
  (construct a.isConst a.cat a.val).2

/-- Address of a variable of the caller. -/
abbrev Var := Nat

/-- The variables of the caller. -/
abbrev Env (V : Type) := Var → V

/-- A left operand at the call site: a temporary holding `v`, or the name of a
variable of the caller. -/
inductive Operand (V : Type)
  | temp (v : V)
  | named (a : Var)
deriving DecidableEq, Repr

/-- The operand as an argument expression: a temporary is an rvalue, a name is an
lvalue denoting the current value of the variable; neither is const. -/
def Operand.toArg {V : Type} (env : Env V) : Operand V → Arg V
  | Operand.temp v => ⟨Cat.rvalue, false, v⟩
  | Operand.named a => ⟨Cat.lvalue, false, env a⟩

/-- A member of type `T` where `T` was deduced from a forwarding reference:
`owned v` for `T = X` (the member is an object), `ref a` for `T = X&` (the member
is a reference to the variable `a`). -/
inductive Slot (V : Type)
  | owned (v : V)
  | ref (a : Var)
deriving DecidableEq, Repr

/-- The expression of type `const T&` that `get_x` returns from the const member
function. For `T = X` it is a const lvalue for the object the slot holds. For
`T = X&` the type `const T&` collapses to `X&`: a non-const lvalue for the
variable the slot is bound to. -/
def Slot.deref {V : Type} (env : Env V) : Slot V → Arg V
  | Slot.owned v => ⟨Cat.lvalue, true, v⟩
  | Slot.ref a => ⟨Cat.lvalue, false, env a⟩

/-- The macro `FIT_MANGLE_CAST(T&&)(e)` is defined in `fit/returns.h`, not in this
header. It names the type `T&&` for the mangled signature of the trailing
return type and is taken to leave the expression `e` as it is: category,
constness and object are those of `e`. -/
def Slot.mangle_cast {V : Type} : Slot V → Arg V → Arg V
  | _, e => e

/-- Writing `v` to the object the member denotes: the slot itself when it owns
its object, the variable of the caller when it is a reference. -/
def Slot.store {V : Type} (env : Env V) : Slot V → V → Slot V × Env V
  | Slot.owned _, v => (Slot.owned v, env)
  | Slot.ref a, v => (Slot.ref a, Function.update env a v)

/-- Model of `fit::always_ref(x)(xs...)` from `fit/always.h`: returns `x` and
ignores the arguments. -/
def always_ref {X α : Type} (x : X) (_xs : List α) : X := x

/-! ## `compressed_pair` -/

/-- Modelled from the spec: `compressed_pair<A, B>` of `fit/detail/compressed_pair.h`,
the storage-optimized pair, which owns two values of types `A` and `B`,
constructed from two values. Only the two logical members are kept; the layout
is not. -/
structure compressed_pair (A B : Type) where
  fst : A
  snd : B
deriving DecidableEq, Repr

/-- Modelled from the spec: the accessor `first(xs...)`, which returns the first
logical member; the arguments are ignored. -/
def compressed_pair.first {A B α : Type} (p : compressed_pair A B) (_xs : List α) : A := p.fst

/-- Modelled from the spec: the accessor `second(xs...)`, which returns the second
logical member; the arguments are ignored. -/
def compressed_pair.second {A B α : Type} (p : compressed_pair A B) (_xs : List α) : B := p.snd

/-! ## `detail::postfix_adaptor` -/

/-- The struct `detail::postfix_adaptor<T, F>`, which derives from
`compressed_pair<T, F>` and inherits its constructor. -/
structure postfix_adaptor (V F : Type) extends compressed_pair (Slot V) F
deriving DecidableEq, Repr

/-- The member `base_function(xs...)`: `this->second(xs...)`. -/
def postfix_adaptor.base_function {V F α : Type} (self : postfix_adaptor V F) (xs : List α) : F :=
  self.second xs

/-- The member `get_x(xs...)`: `this->first(xs...)`. -/
def postfix_adaptor.get_x {V F α : Type} (self : postfix_adaptor V F) (xs : List α) : Slot V :=
  self.first xs

/-- The member `operator()(xs...)`. The callable `base_function(xs...)` is called
with `FIT_MANGLE_CAST(T&&)(fit::move(get_x(xs...)))` followed by
`fit::forward<Ts>(xs)...`. There is no outcome when that call has no value. On
success the outcome holds the result, the adaptor afterwards and the variables
of the caller afterwards: the callable was handed a reference to the object of
the first member and what it leaves there is written back. -/
def postfix_adaptor.operator_call {V F R : Type} [FunctionObject F V R]
    (self : postfix_adaptor V F) (env : Env V) (xs : List (Arg V)) :
    Option (R × postfix_adaptor V F × Env V) :=
  let f : F := self.base_function (xs.map param)
  let slot : Slot V := self.get_x (xs.map param)
  let x : Arg V := slot.mangle_cast (move (slot.deref env))
  let rest : List (Arg V) := xs.map (fun a => forward a.cat (param a))
  (FunctionObject.result f (x :: rest)).map (fun r =>
    let out := slot.store env (FunctionObject.leaves f x rest)
    (r, ⟨⟨out.1, f⟩⟩, out.2))

/-- The member `operator>(a)`: `(*this)(fit::forward<A>(a))`. -/
def postfix_adaptor.operator_gt {V F R : Type} [FunctionObject F V R]
    (self : postfix_adaptor V F) (env : Env V) (a : Arg V) :
    Option (R × postfix_adaptor V F × Env V) :=
  self.operator_call env [forward a.cat (param a)]

/-- The function `detail::make_postfix_adaptor(T&& x, F f)`:
`postfix_adaptor<T, F>(fit::forward<T>(x), fit::move(f))`. For a temporary `T` is
the object type and the first member is move-constructed from it; for a named
variable `T` is a reference type and the first member is bound to the variable.
The second member is move-constructed from the parameter `f`. -/
def make_postfix_adaptor {V F : Type} [MoveConstructible V] [MoveConstructible F]
    (x : Operand V) (f : F) : postfix_adaptor V F :=
  let first : Slot V :=
    match x with
    | Operand.temp v => Slot.owned (construct false Cat.rvalue v).1
    | Operand.named a => Slot.ref a
  ⟨⟨first, (construct false Cat.rvalue f).1⟩⟩

/-! ## `infix_adaptor` -/

/-- The struct `infix_adaptor<F>`, which derives from `F`: `base` is the `F`
subobject. -/
structure infix_adaptor (F : Type) where
  base : F
deriving DecidableEq, Repr

/-- The member `base_function(xs...)`: `always_ref(*this)(xs...)`, converted to
`const F&`. -/
def infix_adaptor.base_function {F α : Type} (self : infix_adaptor F) (xs : List α) : F :=
  (always_ref self xs).base

/-- The member `infix_base_function(xs...)`: `always_ref(*this)(xs...)`, converted
to `const F&`. -/
def infix_adaptor.infix_base_function {F α : Type} (self : infix_adaptor F) (xs : List α) : F :=
  (always_ref self xs).base

/-- The member `operator()(xs...)`: `base_function(xs...)`, as `const F&`, is
called with `fit::forward<Ts>(xs)...`. -/
def infix_adaptor.operator_call {F V R : Type} [FunctionObject F V R]
    (self : infix_adaptor F) (xs : List (Arg V)) : Option R :=
  FunctionObject.result (self.base_function (xs.map param))
    (xs.map (fun a => forward a.cat (param a)))

/-- The capture `operator<(T&& x, const infix_adaptor<F>& i)`:
`detail::make_postfix_adaptor(fit::forward<T>(x), fit::move(i.base_function(x)))`.
`i.base_function(x)` is a `const F&`, so `fit::move` yields a const rvalue, from
which the by-value parameter `f` is initialised. Returns the new adaptor and `i`
afterwards. -/
def operator_lt {V F : Type} [MoveConstructible V] [MoveConstructible F]
    (env : Env V) (x : Operand V) (i : infix_adaptor F) : postfix_adaptor V F × infix_adaptor F :=
  let callee : F := i.base_function [param (x.toArg env)]
  let f := construct true Cat.rvalue callee
  (make_postfix_adaptor x f.1, ⟨f.2⟩)

/-- The factory declared by `FIT_DECLARE_STATIC_VAR(infix, detail::make<infix_adaptor>)`,
called `infix` in the header: `infix(f)` is `infix_adaptor<F>(f)`. -/
def make_infix_adaptor {F : Type} (f : F) : infix_adaptor F := ⟨f⟩

/-- The expression `x <i> y`, which parses as `(x < i) > y`. -/
def two_step {V F R : Type} [MoveConstructible V] [MoveConstructible F] [FunctionObject F V R]
    (env : Env V) (x : Operand V) (i : infix_adaptor F) (y : Arg V) :
    Option (R × postfix_adaptor V F × Env V) :=
  (operator_lt env x i).1.operator_gt env y

/-! ## Applicability of the invocation paths -/

/-- Modelled from the spec: the applicability check of `infix_adaptor::operator()`.
The macro `FIT_RETURNS` is not under `src/`; by the spec an invocation path is
offered when invoking the underlying callable with the exact argument list of
the path, in its order and value category, type-checks. The list here is
`fit::forward<Ts>(xs)...`, handed to `base_function(xs...)`. -/
def infix_adaptor.operator_call_available {F V R : Type} [FunctionObject F V R]
    (self : infix_adaptor F) (xs : List (Arg V)) : Bool :=
  FunctionObject.accepts (self.base_function (xs.map param))
    ((xs.map (fun a => forward a.cat (param a))).map Arg.ty)

/-- Modelled from the spec: the applicability check of
`postfix_adaptor::operator()`. The macros `FIT_SFINAE_RESULT` and
`FIT_SFINAE_RETURNS` are not under `src/`; by the spec the path is offered when
invoking the underlying callable with the exact argument list of the path
type-checks. The list here is the one of lines 104-105: the moved first member
followed by `fit::forward<Ts>(xs)...`. -/
def postfix_adaptor.operator_call_available {V F R : Type} [FunctionObject F V R]
    (self : postfix_adaptor V F) (env : Env V) (xs : List (Arg V)) : Bool :=
  let f : F := self.base_function (xs.map param)
  let slot : Slot V := self.get_x (xs.map param)
  let x : Arg V := slot.mangle_cast (move (slot.deref env))
  let rest : List (Arg V) := xs.map (fun a => forward a.cat (param a))
  FunctionObject.accepts f ((x :: rest).map Arg.ty)

/-- Modelled from the spec: the applicability check of `postfix_adaptor::operator>`,
whose returned expression is `(*this)(fit::forward<A>(a))`: the path is offered
when that invocation of `operator()` is. -/
def postfix_adaptor.operator_gt_available {V F R : Type} [FunctionObject F V R]
    (self : postfix_adaptor V F) (env : Env V) (a : Arg V) : Bool :=
  self.operator_call_available env [forward a.cat (param a)]

/-- The type `T&&` that line 101 names for the first argument of the callable:
`X&&` when the member is an object, and `X&` by reference collapsing when the
member is a reference. -/
def Slot.declared_type {V : Type} : Slot V → ArgType
  | Slot.owned _ => ⟨Cat.rvalue, false⟩
  | Slot.ref _ => ⟨Cat.lvalue, false⟩

/-! ## Callables used as examples -/

/-- Moving from an integer leaves it unchanged. -/
instance : MoveConstructible Int := ⟨fun n => n⟩

/-- The function object `plus_f` of the header: `T operator()(T x, U y) const`
returns `x + y`; both parameters are taken by value. -/
structure plus_f where
deriving DecidableEq, Repr

instance : MoveConstructible plus_f := ⟨fun f => f⟩

instance : FunctionObject plus_f Int Int where
  accepts := fun _ ts =>
    match ts with
    | [_, _] => true
    | _ => false
  result := fun _ args =>
    match args with
    | [x, y] => some (x.val + y.val)
    | _ => none
  leaves := fun _ a _ => passByValue a

/-- The callable `f(a, b) = a / b` over integers of the spec's example: C++
division, which truncates toward zero and is undefined for a zero divisor; both
parameters are taken by value. -/
structure div_f where
deriving DecidableEq, Repr

instance : MoveConstructible div_f := ⟨fun f => f⟩

instance : FunctionObject div_f Int Int where
  accepts := fun _ ts =>
    match ts with
    | [_, _] => true
    | _ => false
  result := fun _ args =>
    match args with
    | [x, y] => if y.val = 0 then none else some (Int.tdiv x.val y.val)
    | _ => none
  leaves := fun _ a _ => passByValue a

/-- The callable `f(a, b) = a - b` over integers of the spec's example; both
parameters are taken by value. -/
structure minus_f where
deriving DecidableEq, Repr

instance : MoveConstructible minus_f := ⟨fun f => f⟩

instance : FunctionObject minus_f Int Int where
  accepts := fun _ ts =>
    match ts with
    | [_, _] => true
    | _ => false
  result := fun _ args =>
    match args with
    | [x, y] => some (x.val - y.val)
    | _ => none
  leaves := fun _ a _ => passByValue a

/-- A `std::vector<int>` as the list of its elements: the move constructor leaves
its source empty. -/
instance : MoveConstructible (List Int) := ⟨fun _ => []⟩

/-- A callable that takes its arguments by value,
`std::vector<int> operator()(std::vector<int> a, std::vector<int> b) const`,
returning the elements of `a` followed by those of `b`. -/
structure append_f where
deriving DecidableEq, Repr

instance : MoveConstructible append_f := ⟨fun f => f⟩

instance : FunctionObject append_f (List Int) (List Int) where
  accepts := fun _ ts =>
    match ts with
    | [_, _] => true
    | _ => false
  result := fun _ args =>
    match args with
    | [x, y] => some (x.val ++ y.val)
    | _ => none
  leaves := fun _ a _ => passByValue a

/-- A callable that writes through its first parameter,
`int operator()(int& a, int b) const`, which performs `a += b` and returns `a`.
An `int&` binds to non-const lvalues only. -/
structure add_assign_f where
deriving DecidableEq, Repr

instance : MoveConstructible add_assign_f := ⟨fun f => f⟩

instance : FunctionObject add_assign_f Int Int where
  accepts := fun _ ts =>
    match ts with
    | [t, _] => decide (t.cat = Cat.lvalue) && !t.isConst
    | _ => false
  result := fun _ args =>
    match args with
    | [x, y] => if x.cat = Cat.lvalue ∧ x.isConst = false then some (x.val + y.val) else none
    | _ => none
  leaves := fun _ a rest =>
    match rest with
    | [y] => a.val + y.val
    | _ => a.val

/-! ## Captures through the static wrappers -/

/-- A type with a default constructor: `default` is the value of `X()`. -/
class DefaultConstructible (X : Type) where
  default : X

/-- The constructors of `infix_adaptor<F>` are those of `F`
(`FIT_INHERIT_CONSTRUCTOR(infix_adaptor, F)`): `infix_adaptor<F>()`
default-constructs the `F` subobject. -/
instance {F : Type} [DefaultConstructible F] : DefaultConstructible (infix_adaptor F) :=
  ⟨⟨DefaultConstructible.default⟩⟩

/-- The struct `detail::static_function_wrapper<F>`, which the header only
declares. The one member the capture uses is `base_function()`; the object it
returns is taken as a parameter, the field `wrapped`. -/
structure static_function_wrapper (A : Type) where
  wrapped : A
deriving DecidableEq, Repr

/-- The member `base_function()` of `static_function_wrapper<F>`, as the capture
uses it: it returns the wrapped function object. -/
def static_function_wrapper.base_function {A : Type} (w : static_function_wrapper A) : A :=
  w.wrapped

/-- The struct `detail::static_default_function<F>`, which the header only
declares. The capture does not name its parameter of this type; whatever the
object holds is taken as a parameter, the field `contents`. -/
structure static_default_function (A S : Type) where
  contents : S
deriving DecidableEq, Repr

/-- The capture `operator<(T&& x, const static_function_wrapper<F>& f)`:
`detail::make_postfix_adaptor(fit::forward<T>(x),
fit::move(f.base_function().infix_base_function()))`. The callable is reached
through const references, so `fit::move` yields a const rvalue, from which the
by-value parameter of `make_postfix_adaptor` is initialised. Returns the new
adaptor and the wrapper afterwards. -/
def operator_lt_static_function_wrapper {V G : Type} [MoveConstructible V] [MoveConstructible G]
    (x : Operand V) (f : static_function_wrapper (infix_adaptor G)) :
    postfix_adaptor V G × static_function_wrapper (infix_adaptor G) :=
  let callee : G := f.base_function.infix_base_function ([] : List (Arg V))
  let g := construct true Cat.rvalue callee
  (make_postfix_adaptor x g.1, ⟨⟨g.2⟩⟩)

/-- The capture `operator<(T&& x, const static_default_function<F>&)`:
`detail::make_postfix_adaptor(fit::forward<T>(x),
fit::move(F().infix_base_function()))`, with `F` an `infix_adaptor`. The
temporary `F()` is read through the `const F&` that `infix_base_function`
returns. -/
def operator_lt_static_default_function {V G S : Type} [MoveConstructible V]
    [MoveConstructible G] [DefaultConstructible G]
    (x : Operand V) (_f : static_default_function (infix_adaptor G) S) : postfix_adaptor V G :=
  let fresh : infix_adaptor G := DefaultConstructible.default
  let callee : G := fresh.infix_base_function ([] : List (Arg V))
  make_postfix_adaptor x (construct true Cat.rvalue callee).1

/-- A default-constructed `plus_f`. -/
instance : DefaultConstructible plus_f := ⟨plus_f.mk⟩

/-- A default-constructed `add_assign_f`. -/
instance : DefaultConstructible add_assign_f := ⟨add_assign_f.mk⟩

/-! ## Forwarding lemmas -/

/-- Forwarding a named parameter with its deduced category gives back the
argument that was bound to it. -/
theorem forward_param {V : Type} (a : Arg V) : forward a.cat (param a) = a := rfl

/-- Forwarding a whole pack gives back the argument list. -/
theorem map_forward_param {V : Type} (xs : List (Arg V)) :
    xs.map (fun a => forward a.cat (param a)) = xs := by
  induction xs with
  | nil => rfl
  | cons a t ih => simp [forward_param]

/-- Invocation of a `postfix_adaptor`, unfolded: the callable is the second
member, its first argument is the moved first member, then the supplied
arguments. -/
theorem operator_call_unfold {V F R : Type} [FunctionObject F V R]
    (self : postfix_adaptor V F) (env : Env V) (xs : List (Arg V)) :
    self.operator_call env xs =
      (FunctionObject.result self.snd (self.fst.mangle_cast (move (self.fst.deref env)) :: xs)).map
        (fun r =>
          (r, ⟨⟨(self.fst.store env (FunctionObject.leaves self.snd
                  (self.fst.mangle_cast (move (self.fst.deref env))) xs)).1, self.snd⟩⟩,
            (self.fst.store env (FunctionObject.leaves self.snd
                  (self.fst.mangle_cast (move (self.fst.deref env))) xs)).2)) := by
  simp only [postfix_adaptor.operator_call, postfix_adaptor.base_function, postfix_adaptor.get_x,
    compressed_pair.first, compressed_pair.second, map_forward_param]

/-- Invocation of an adaptor that owns its captured operand: the callable receives
the member as a const rvalue, and the member afterwards holds what the callable
left in it. -/
theorem operator_call_owned {V F R : Type} [FunctionObject F V R]
    (f : F) (c : V) (env : Env V) (xs : List (Arg V)) :
    (⟨⟨Slot.owned c, f⟩⟩ : postfix_adaptor V F).operator_call env xs =
      (FunctionObject.result f (⟨Cat.rvalue, true, c⟩ :: xs)).map (fun r =>
        (r, ⟨⟨Slot.owned (FunctionObject.leaves f ⟨Cat.rvalue, true, c⟩ xs), f⟩⟩, env)) := by
  rw [operator_call_unfold]
  rfl

/-- Invocation of an adaptor whose first member is a reference: the callable
receives the variable as a non-const rvalue, and the variable afterwards holds
what the callable left in it. -/
theorem operator_call_ref {V F R : Type} [FunctionObject F V R]
    (f : F) (a : Var) (env : Env V) (xs : List (Arg V)) :
    (⟨⟨Slot.ref a, f⟩⟩ : postfix_adaptor V F).operator_call env xs =
      (FunctionObject.result f (⟨Cat.rvalue, false, env a⟩ :: xs)).map (fun r =>
        (r, ⟨⟨Slot.ref a, f⟩⟩,
          Function.update env a (FunctionObject.leaves f ⟨Cat.rvalue, false, env a⟩ xs))) := by
  rw [operator_call_unfold]
  rfl

/-- Capturing a temporary: the new adaptor owns the value and a copy of the
callable; the `infix_adaptor` is as before. -/
theorem operator_lt_temp {V F : Type} [MoveConstructible V] [MoveConstructible F]
    (env : Env V) (v : V) (i : infix_adaptor F) :
    operator_lt env (Operand.temp v) i = (⟨⟨Slot.owned v, i.base⟩⟩, i) := rfl

/-- Capturing a named variable: the new adaptor refers to the variable and holds a
copy of the callable; the `infix_adaptor` is as before. -/
theorem operator_lt_named {V F : Type} [MoveConstructible V] [MoveConstructible F]
    (env : Env V) (a : Var) (i : infix_adaptor F) :
    operator_lt env (Operand.named a) i = (⟨⟨Slot.ref a, i.base⟩⟩, i) := rfl

/-- The two-step call on a temporary holding `v`: the callable receives a const
rvalue holding `v`, then `y`. -/
theorem two_step_temp {V F R : Type} [MoveConstructible V] [MoveConstructible F]
    [FunctionObject F V R] (env : Env V) (v : V) (i : infix_adaptor F) (y : Arg V) :
    two_step env (Operand.temp v) i y =
      (FunctionObject.result i.base [⟨Cat.rvalue, true, v⟩, y]).map (fun r =>
        (r, ⟨⟨Slot.owned (FunctionObject.leaves i.base ⟨Cat.rvalue, true, v⟩ [y]), i.base⟩⟩,
          env)) := by
  rw [two_step, operator_lt_temp, postfix_adaptor.operator_gt, forward_param,
    operator_call_owned]

/-- The two-step call on the variable `a`: the callable receives a non-const
rvalue of the variable, then `y`. -/
theorem two_step_named {V F R : Type} [MoveConstructible V] [MoveConstructible F]
    [FunctionObject F V R] (env : Env V) (a : Var) (i : infix_adaptor F) (y : Arg V) :
    two_step env (Operand.named a) i y =
      (FunctionObject.result i.base [⟨Cat.rvalue, false, env a⟩, y]).map (fun r =>
        (r, ⟨⟨Slot.ref a, i.base⟩⟩,
          Function.update env a (FunctionObject.leaves i.base ⟨Cat.rvalue, false, env a⟩ [y]))) := by
  rw [two_step, operator_lt_named, postfix_adaptor.operator_gt, forward_param,
    operator_call_ref]

/-- The three capture overloads build the same adaptor: through a
`static_function_wrapper` whose `base_function()` is `i` the one that `x < i`
builds, leaving the wrapper as it was, and through a `static_default_function`
the one that `x < A()` builds for a default-constructed `A`, whatever the
object passed holds. -/
theorem capture_overloads_build_same_adaptor {V G S : Type} [MoveConstructible V]
    [MoveConstructible G] [DefaultConstructible G] (env : Env V) (x : Operand V) :
    (∀ w : static_function_wrapper (infix_adaptor G),
      (operator_lt_static_function_wrapper x w).1 = (operator_lt env x w.base_function).1 ∧
      (operator_lt_static_function_wrapper x w).2 = w) ∧
    (∀ d : static_default_function (infix_adaptor G) S,
      operator_lt_static_default_function x d =
        (operator_lt env x (DefaultConstructible.default : infix_adaptor G)).1 ∧
      (operator_lt_static_default_function x d).snd = (DefaultConstructible.default : G)) := by
  constructor
  · intro w
    exact ⟨by cases x <;> rfl, rfl⟩
  · intro d
    exact ⟨by cases x <;> rfl, by cases x <;> rfl⟩

/-- The applicability checks, unfolded: direct invocation is offered when the
callable accepts the types of `xs`; `operator()` of a `postfix_adaptor` when the
callable accepts the type of the moved first member followed by the types of
`xs`; `operator>` with `a` when `operator()` with the one argument `a` is. -/
theorem available_unfold {V F R : Type} [FunctionObject F V R]
    (f : F) (env : Env V) (xs : List (Arg V)) (a : Arg V) :
    (⟨f⟩ : infix_adaptor F).operator_call_available xs =
      FunctionObject.accepts f (xs.map Arg.ty) ∧
    (∀ c : V, (⟨⟨Slot.owned c, f⟩⟩ : postfix_adaptor V F).operator_call_available env xs =
      FunctionObject.accepts f (⟨Cat.rvalue, true⟩ :: xs.map Arg.ty)) ∧
    (∀ v : Var, (⟨⟨Slot.ref v, f⟩⟩ : postfix_adaptor V F).operator_call_available env xs =
      FunctionObject.accepts f (⟨Cat.rvalue, false⟩ :: xs.map Arg.ty)) ∧
    (∀ w : postfix_adaptor V F,
      w.operator_gt_available env a = w.operator_call_available env [a]) := by
  refine ⟨?_, fun c => ?_, fun v => ?_, fun w => ?_⟩
  · simp only [infix_adaptor.operator_call_available, infix_adaptor.base_function, always_ref,
      map_forward_param]
  · simp only [postfix_adaptor.operator_call_available, postfix_adaptor.base_function,
      postfix_adaptor.get_x, compressed_pair.first, compressed_pair.second, map_forward_param]
    rfl
  · simp only [postfix_adaptor.operator_call_available, postfix_adaptor.base_function,
      postfix_adaptor.get_x, compressed_pair.first, compressed_pair.second, map_forward_param]
    rfl
  · rw [postfix_adaptor.operator_gt_available, forward_param]

/-! ## The two-step call -/

/-- C1, at the failing input: the variable `v` holds `3` and `f` is
`int operator()(int& a, int b) const` with `a += b`. The call `f(v, 2)` is defined
and gives `5`, but `v <infix(f)> 2` has no outcome: the callable is handed the
moved variable, an rvalue, which an `int&` does not accept. The example of the
header, `3 <plus> 2`, gives `5`. -/
theorem two_step_misses_call :
    FunctionObject.result add_assign_f.mk
        [(Operand.named 0).toArg (fun _ => (3 : Int)), ⟨Cat.rvalue, false, 2⟩] = some (5 : Int) ∧
    two_step (fun _ => (3 : Int)) (Operand.named 0) (make_infix_adaptor add_assign_f.mk)
        ⟨Cat.rvalue, false, 2⟩ = none ∧
    (two_step (fun _ => (0 : Int)) (Operand.temp 3) (make_infix_adaptor plus_f.mk)
        ⟨Cat.rvalue, false, 2⟩).map (fun o => o.1) = some (5 : Int) := by
  refine ⟨rfl, ?_, ?_⟩
  · rw [two_step_named]
    rfl
  · rw [two_step_temp]
    rfl

/-- C3: invoking an `infix_adaptor` directly with any argument list `xs` is the
call of its underlying callable with `xs`, in the same order. -/
theorem infix_call_eq_base {V F R : Type} [FunctionObject F V R]
    (i : infix_adaptor F) (xs : List (Arg V)) :
    i.operator_call xs = FunctionObject.result i.base xs := by
  simp only [infix_adaptor.operator_call, infix_adaptor.base_function, always_ref,
    map_forward_param]

/-- C4, at the failing input: the variable `v` holds `3` and `f` is
`int operator()(int& a, int b) const` with `a += b`. The direct call
`infix(f)(v, 2)` forwards `v` as an lvalue and gives `5`; the two-step call
`v <infix(f)> 2` hands the callable the moved variable and has no outcome. With
`plus`, `3` and `2` the two paths both give `5`. -/
theorem direct_call_and_two_step_differ :
    (make_infix_adaptor add_assign_f.mk).operator_call
        [(Operand.named 0).toArg (fun _ => (3 : Int)), ⟨Cat.rvalue, false, 2⟩] = some (5 : Int) ∧
    (two_step (fun _ => (3 : Int)) (Operand.named 0) (make_infix_adaptor add_assign_f.mk)
        ⟨Cat.rvalue, false, 2⟩).map (fun o => o.1) = none ∧
    (make_infix_adaptor plus_f.mk).operator_call
        [(Operand.temp (3 : Int)).toArg (fun _ => 0), ⟨Cat.rvalue, false, 2⟩] = some (5 : Int) ∧
    (two_step (fun _ => (0 : Int)) (Operand.temp 3) (make_infix_adaptor plus_f.mk)
        ⟨Cat.rvalue, false, 2⟩).map (fun o => o.1) = some (5 : Int) := by
  refine ⟨rfl, ?_, rfl, ?_⟩
  · rw [two_step_named]
    rfl
  · rw [two_step_temp]
    rfl

/-- C5: for every `postfix_adaptor` `w` and right operand `a`, `w > a` is `w(a)`:
the same result, the same adaptor afterwards and the same variables afterwards. -/
theorem operator_gt_eq_call {V F R : Type} [FunctionObject F V R]
    (w : postfix_adaptor V F) (env : Env V) (a : Arg V) :
    w.operator_gt env a = w.operator_call env [a] := by
  rw [postfix_adaptor.operator_gt, forward_param]

/-- C6: with `f(a, b) = a / b` over integers, for every left operand holding `x`
and every nonzero right operand `y` the two-step call gives the quotient of `x` by
`y` truncated toward zero: the left operand is the dividend. -/
theorem two_step_div (env : Env Int) (x : Operand Int) (y : Arg Int) (hy : y.val ≠ 0) :
    (two_step env x (make_infix_adaptor div_f.mk) y).map (fun o => o.1) =
      some (Int.tdiv (x.toArg env).val y.val) := by
  cases x with
  | temp v =>
    rw [two_step_temp, Option.map_map]
    show Option.map _ (if y.val = 0 then none else some (Int.tdiv v y.val)) = _
    rw [if_neg hy]
    rfl
  | named a =>
    rw [two_step_named, Option.map_map]
    show Option.map _ (if y.val = 0 then none else some (Int.tdiv (env a) y.val)) = _
    rw [if_neg hy]
    rfl

/-- The spec's scenario: capturing `10` and applying `2` gives `5`; capturing `2`
and applying `10` gives `0`. -/
theorem two_step_div_witness :
    ((2 : Int) ≠ 0 ∧
      (two_step (fun _ => 0) (Operand.temp (10 : Int)) (make_infix_adaptor div_f.mk)
        ⟨Cat.rvalue, false, 2⟩).map (fun o => o.1) = some (5 : Int)) ∧
    ((10 : Int) ≠ 0 ∧
      (two_step (fun _ => 0) (Operand.temp (2 : Int)) (make_infix_adaptor div_f.mk)
        ⟨Cat.rvalue, false, 10⟩).map (fun o => o.1) = some (0 : Int)) :=
  ⟨⟨by decide, two_step_div (fun _ => 0) (Operand.temp 10) ⟨Cat.rvalue, false, 2⟩ (by decide)⟩,
   ⟨by decide, two_step_div (fun _ => 0) (Operand.temp 2) ⟨Cat.rvalue, false, 10⟩ (by decide)⟩⟩

/-- C7: with the non-commutative `f(a, b) = a - b` over integers, for all operands
the two-step call gives `f(x, y) = x - y`, the left operand first; its value is
that of `f(y, x)` only where the two calls have the same value, at `x = y`. -/
theorem two_step_minus (env : Env Int) (x : Operand Int) (y : Arg Int) :
    (two_step env x (make_infix_adaptor minus_f.mk) y).map (fun o => o.1) =
        some ((x.toArg env).val - y.val) ∧
      ((two_step env x (make_infix_adaptor minus_f.mk) y).map (fun o => o.1) =
        some (y.val - (x.toArg env).val) ↔ (x.toArg env).val = y.val) := by
  have h : (two_step env x (make_infix_adaptor minus_f.mk) y).map (fun o => o.1) =
      some ((x.toArg env).val - y.val) := by
    cases x with
    | temp v => rw [two_step_temp]; rfl
    | named a => rw [two_step_named]; rfl
  refine ⟨h, ?_⟩
  rw [h, Option.some_inj]
  constructor <;> intro e <;> omega

/-! ## Objects, moves and references -/

/-- C8, at the failing input: a `postfix_adaptor` owns the vector `[1, 2, 3]` and a
callable that takes its arguments by value and appends them. Invoked with `[4]`
it returns `[1, 2, 3, 4]` and still holds `[1, 2, 3]`, not the moved-from (empty)
vector: the member reaches the callable as a const rvalue and is copied. A
second invocation returns `[1, 2, 3, 4]` again. The stored callable is unchanged. -/
theorem postfix_call_copies_operand :
    (⟨⟨Slot.owned [1, 2, 3], append_f.mk⟩⟩ : postfix_adaptor (List Int) append_f).operator_call
        (fun _ => []) [⟨Cat.rvalue, false, [4]⟩] =
      some ([1, 2, 3, 4], ⟨⟨Slot.owned [1, 2, 3], append_f.mk⟩⟩, fun _ => []) ∧
    ((⟨⟨Slot.owned [1, 2, 3], append_f.mk⟩⟩ : postfix_adaptor (List Int) append_f).operator_call
        (fun _ => []) [⟨Cat.rvalue, false, [4]⟩]).bind
        (fun o => (o.2.1.operator_call o.2.2 [⟨Cat.rvalue, false, [4]⟩]).map (fun p => p.1)) =
      some [1, 2, 3, 4] ∧
    (Slot.owned [1, 2, 3] : Slot (List Int)) ≠
      Slot.owned (MoveConstructible.movedFrom ([1, 2, 3] : List Int)) := by
  refine ⟨?_, ?_, by decide⟩
  · rw [operator_call_owned]
    rfl
  · rw [operator_call_owned]
    rfl

/-- C9: capturing a left operand leaves the `infix_adaptor` as it was and stores a
copy of its callable in the new adaptor, so a second capture-then-apply on the
adaptor as the first capture left it, with the same operands, gives the same
outcome, and a direct invocation of it gives the same result as before. -/
theorem infix_adaptor_unchanged {V F R : Type} [MoveConstructible V] [MoveConstructible F]
    [FunctionObject F V R] (env : Env V) (x : Operand V) (i : infix_adaptor F) (y : Arg V)
    (xs : List (Arg V)) :
    (operator_lt env x i).2 = i ∧
    (operator_lt env x i).1.snd = i.base ∧
    two_step env x (operator_lt env x i).2 y = two_step env x i y ∧
    (operator_lt env x i).2.operator_call xs = i.operator_call xs := by
  have h : (operator_lt env x i).2 = i := by
    cases x
    · rw [operator_lt_temp]
    · rw [operator_lt_named]
  refine ⟨h, ?_, by rw [h], by rw [h]⟩
  cases x
  · rw [operator_lt_temp]
  · rw [operator_lt_named]

/-- C10, as stated, fails for a named variable. The variable `0` holds `3` when it
is captured with `plus`; the adaptor refers to it. After the caller sets it to `7`
the right-apply with `2` gives `9`, not `3 + 2 = 5`. With a vector `[1, 2, 3]` in
the variable and a callable that takes its arguments by value, the right-apply
with `[4]` returns `[1, 2, 3, 4]` and leaves the variable of the caller empty. -/
theorem capture_named_not_owned :
    (operator_lt (fun _ => (3 : Int)) (Operand.named 0) (make_infix_adaptor plus_f.mk)).1.fst
        = Slot.ref 0 ∧
    ((operator_lt (fun _ => (3 : Int)) (Operand.named 0) (make_infix_adaptor plus_f.mk)).1.operator_gt
        (Function.update (fun _ => (3 : Int)) 0 7) ⟨Cat.rvalue, false, 2⟩).map (fun o => o.1)
        = some (9 : Int) ∧
    ((operator_lt (fun _ => ([1, 2, 3] : List Int)) (Operand.named 0)
        (make_infix_adaptor append_f.mk)).1.operator_gt
        (fun _ => [1, 2, 3]) ⟨Cat.rvalue, false, [4]⟩).map (fun o => (o.1, o.2.2 0))
        = some ([1, 2, 3, 4], []) := by
  refine ⟨rfl, ?_, ?_⟩
  · rw [operator_lt_named, postfix_adaptor.operator_gt, forward_param, operator_call_ref]
    rfl
  · rw [operator_lt_named, postfix_adaptor.operator_gt, forward_param, operator_call_ref]
    rfl

/-- C10, amended: for a temporary left operand the adaptor produced by `x < i` owns
an object holding the value of `x` and a copy of the callable, the right-apply
passes that value whatever the variables of the caller hold by then, and leaves
those variables as they are. For a named variable the adaptor holds a reference
to it and a copy of the callable: the right-apply passes the value the variable
holds at that time, and the callable works on the variable itself, which
afterwards holds what the callable left in it. -/
theorem capture_ownership {V F R : Type} [MoveConstructible V] [MoveConstructible F]
    [FunctionObject F V R] (i : infix_adaptor F) (env later : Env V) (y : Arg V) :
    (∀ v : V,
      (operator_lt env (Operand.temp v) i).1 = ⟨⟨Slot.owned v, i.base⟩⟩ ∧
      (operator_lt env (Operand.temp v) i).1.operator_gt later y =
        (FunctionObject.result i.base [⟨Cat.rvalue, true, v⟩, y]).map (fun r =>
          (r, ⟨⟨Slot.owned (FunctionObject.leaves i.base ⟨Cat.rvalue, true, v⟩ [y]), i.base⟩⟩,
            later))) ∧
    (∀ a : Var,
      (operator_lt env (Operand.named a) i).1 = ⟨⟨Slot.ref a, i.base⟩⟩ ∧
      (operator_lt env (Operand.named a) i).1.operator_gt later y =
        (FunctionObject.result i.base [⟨Cat.rvalue, false, later a⟩, y]).map (fun r =>
          (r, ⟨⟨Slot.ref a, i.base⟩⟩,
            Function.update later a
              (FunctionObject.leaves i.base ⟨Cat.rvalue, false, later a⟩ [y])))) := by
  constructor
  · intro v
    refine ⟨rfl, ?_⟩
    rw [operator_lt_temp, postfix_adaptor.operator_gt, forward_param, operator_call_owned]
  · intro a
    refine ⟨rfl, ?_⟩
    rw [operator_lt_named, postfix_adaptor.operator_gt, forward_param, operator_call_ref]

/-! ## Applicability, accessors and the capture overloads -/

/-- C11, at the failing input: the adaptor `postfix_adaptor<int&, F>` refers to a
variable holding `3`, with `F` the callable `int operator()(int& a, int b) const`,
and is given the argument `2`. `F` is callable with `(T&&, int)`, which is
`(int&, int)`, the types line 101 names; yet neither `operator()` nor `operator>`
is offered, and the invocation has no outcome: the argument the path passes is
the moved member, an rvalue. Direct invocation of `infix(F)` with `(v, 2)` is
offered, as `F` is callable with these arguments. -/
theorem postfix_call_not_offered :
    FunctionObject.accepts add_assign_f.mk
      [(Slot.ref 0 : Slot Int).declared_type, (⟨Cat.rvalue, false, (2 : Int)⟩ : Arg Int).ty] = true ∧
    (⟨⟨Slot.ref 0, add_assign_f.mk⟩⟩ : postfix_adaptor Int add_assign_f).operator_call_available
      (fun _ => 3) [⟨Cat.rvalue, false, 2⟩] = false ∧
    (⟨⟨Slot.ref 0, add_assign_f.mk⟩⟩ : postfix_adaptor Int add_assign_f).operator_gt_available
      (fun _ => 3) ⟨Cat.rvalue, false, 2⟩ = false ∧
    (⟨⟨Slot.ref 0, add_assign_f.mk⟩⟩ : postfix_adaptor Int add_assign_f).operator_call
      (fun _ => 3) [⟨Cat.rvalue, false, 2⟩] = none ∧
    (make_infix_adaptor add_assign_f.mk).operator_call_available
      [(Operand.named 0).toArg (fun _ => (3 : Int)), ⟨Cat.rvalue, false, 2⟩] = true := by
  refine ⟨rfl, rfl, rfl, ?_, rfl⟩
  rw [operator_call_ref]
  rfl

/-- C13: for every `infix_adaptor` `i` and left operand `x`, the adaptor `x < i`
holds `x` in its first member and the callable of `i` in its second: `get_x`
returns the captured value for a temporary and the captured variable for a name,
in both cases denoting the value of `x`, and `base_function` returns the callable
of `i`, whatever arguments the accessors are given. -/
theorem capture_stores_operand_and_callable {V F α β : Type} [MoveConstructible V]
    [MoveConstructible F] (env : Env V) (i : infix_adaptor F) (args : List α) (args2 : List β) :
    (∀ v : V, (operator_lt env (Operand.temp v) i).1.get_x args = Slot.owned v) ∧
    (∀ a : Var, (operator_lt env (Operand.named a) i).1.get_x args = Slot.ref a) ∧
    (∀ x : Operand V,
      (((operator_lt env x i).1.get_x args).deref env).val = (x.toArg env).val) ∧
    (∀ x : Operand V, (operator_lt env x i).1.base_function args2 = i.base) := by
  refine ⟨fun v => rfl, fun a => rfl, fun x => ?_, fun x => ?_⟩
  · cases x <;> rfl
  · cases x <;> rfl

/-- C14, at the failing input: the variable `v` holds `3` and `f` is
`int operator()(int& a, int b) const` with `a += b`. Capturing `v` through a
`static_function_wrapper` whose `base_function()` is `infix(f)`, or through a
`static_default_function` of that adaptor type, builds the adaptor that
`v < infix(f)` builds, with a reference to `v` and the callable `f`. The call
`f(v, 2)` gives `5`, but completing with `2` has no outcome on any of the three
paths: the callable is handed the moved variable, an rvalue. -/
theorem capture_overloads_miss_call :
    (operator_lt_static_function_wrapper (Operand.named 0)
        (⟨make_infix_adaptor add_assign_f.mk⟩ : static_function_wrapper (infix_adaptor add_assign_f))).1
      = (operator_lt (fun _ => (3 : Int)) (Operand.named 0) (make_infix_adaptor add_assign_f.mk)).1 ∧
    operator_lt_static_default_function (Operand.named 0)
        (⟨()⟩ : static_default_function (infix_adaptor add_assign_f) Unit)
      = (operator_lt (fun _ => (3 : Int)) (Operand.named 0) (make_infix_adaptor add_assign_f.mk)).1 ∧
    (operator_lt (fun _ => (3 : Int)) (Operand.named 0) (make_infix_adaptor add_assign_f.mk)).1
      = ⟨⟨Slot.ref 0, add_assign_f.mk⟩⟩ ∧
    FunctionObject.result add_assign_f.mk
        [(Operand.named 0).toArg (fun _ => (3 : Int)), ⟨Cat.rvalue, false, 2⟩] = some (5 : Int) ∧
    ((operator_lt_static_function_wrapper (Operand.named 0)
        (⟨make_infix_adaptor add_assign_f.mk⟩ :
          static_function_wrapper (infix_adaptor add_assign_f))).1.operator_gt
        (fun _ => (3 : Int)) ⟨Cat.rvalue, false, 2⟩).map (fun o => o.1) = none ∧
    ((operator_lt_static_default_function (Operand.named 0)
        (⟨()⟩ : static_default_function (infix_adaptor add_assign_f) Unit)).operator_gt
        (fun _ => (3 : Int)) ⟨Cat.rvalue, false, 2⟩).map (fun o => o.1) = none ∧
    ((operator_lt (fun _ => (3 : Int)) (Operand.named 0)
        (make_infix_adaptor add_assign_f.mk)).1.operator_gt
        (fun _ => (3 : Int)) ⟨Cat.rvalue, false, 2⟩).map (fun o => o.1) = none := by
  have h1 : (operator_lt_static_function_wrapper (Operand.named 0)
        (⟨make_infix_adaptor add_assign_f.mk⟩ :
          static_function_wrapper (infix_adaptor add_assign_f))).1
      = (⟨⟨Slot.ref 0, add_assign_f.mk⟩⟩ : postfix_adaptor Int add_assign_f) := rfl
  have h2 : operator_lt_static_default_function (Operand.named 0)
        (⟨()⟩ : static_default_function (infix_adaptor add_assign_f) Unit)
      = (⟨⟨Slot.ref 0, add_assign_f.mk⟩⟩ : postfix_adaptor Int add_assign_f) := rfl
  have h3 : (⟨⟨Slot.ref 0, add_assign_f.mk⟩⟩ : postfix_adaptor Int add_assign_f).operator_gt
      (fun _ => (3 : Int)) ⟨Cat.rvalue, false, 2⟩ = none := by
    rw [postfix_adaptor.operator_gt, forward_param, operator_call_ref]
    rfl
  refine ⟨rfl, rfl, rfl, rfl, ?_, ?_, ?_⟩
  · rw [h1, h3]; rfl
  · rw [h2, h3]; rfl
  · rw [operator_lt_named]
    exact congrArg (Option.map (fun o => o.1)) h3

/-- C15: for every `infix_adaptor` `i`, `base_function(xs...)` and
`infix_base_function(ys...)` return the same callable, the `F` subobject of `i`,
whatever the argument lists; it is the callable a direct invocation calls and
the callable the capture stores. -/
theorem base_function_eq_infix_base_function {V F R α β : Type} [MoveConstructible V]
    [MoveConstructible F] [FunctionObject F V R]
    (i : infix_adaptor F) (xs : List α) (ys : List β) :
    i.base_function xs = i.base ∧
    i.infix_base_function ys = i.base ∧
    i.base_function xs = i.infix_base_function ys ∧
    (∀ zs : List (Arg V), i.operator_call zs = FunctionObject.result (i.infix_base_function ys) zs) ∧
    (∀ (env : Env V) (x : Operand V), (operator_lt env x i).1.snd = i.infix_base_function ys) := by
  refine ⟨rfl, rfl, rfl, fun zs => ?_, fun env x => ?_⟩
  · simp only [infix_adaptor.operator_call, infix_adaptor.base_function,
      infix_adaptor.infix_base_function, always_ref, map_forward_param]
  · cases x <;> rfl

end fit
